import Mathlib

/-!
Shallow embedding of the audio-loop transport core of `audio_loop_final`:
`Loop._callback`, track management (`src/loop.py`, `src/track.py`) and the
scheduler / clock prototypes (`src/demos/draft_class_structures.py`).

Audio samples are embedded as rationals (`ℚ`); numpy arrays become lists of
samples (the per-frame channel structure is irrelevant to the properties
treated here, so a frame is one sample).  Python exceptions are embedded as
`Except PyError`: a `.error` value marks the callback or an operation
raising.
-/

namespace AudioLoop

/-- Python exceptions that the embedded operations can raise. -/
inductive PyError where
  /-- `ValueError` raised by `Loop.check_position`. -/
  | valueError
  /-- `TypeError` — in particular, calling a non-callable attribute. -/
  | typeErrorNotCallable
  /-- `AttributeError` — e.g. `None.track_data` when a loop slot is empty. -/
  | attributeError
  /-- `KeyError` — dictionary lookup with an absent key. -/
  | keyError
  deriving Repr, DecidableEq

/-- From `src/track.py`, class `Track` (`@dataclass` with explicit
`__init__`): the fields relevant to the transport core.  `track_volume` is
initialised to `1.0` and only changed by `set_volume`; `channel_config` is a
plain integer attribute (mono = 1, stereo = 2), not a method.  `track_data`
is the sample buffer that `Loop._callback` reads and writes
(`track.track_data[...]`); `src/track.py` itself never assigns it, the
buffer is attached by the callers, so it is carried here as the list of
samples.  The remaining attributes (names, file paths, effect settings,
timestamps) play no part in the claims and are omitted. -/
structure Track where
  track_volume : ℚ
  channel_config : Nat
  track_data : List ℚ
  deriving Repr, DecidableEq

/-- From `src/loop.py`, class `Loop`: the mutable state the callback and the
track-management operations touch.  `loop_tracks` is the dict with keys
`1..6`; it is embedded as the list of its values in key order, so position
`p` lives at index `p - 1`.  A `none` entry is a slot holding Python `None`
(as left by `remove_track`). -/
structure Loop where
  loop_tracks : List (Option Track)
  current_frame : Nat
  is_recording : Bool
  recording_track : Nat
  deriving Repr, DecidableEq

/-- `SAMPLE_RATE = 44100` from `src/loop.py`. -/
def SAMPLE_RATE : Nat := 44100

/-- `DEFAULT_LOOP_SEC = 4` from `src/loop.py`. -/
def DEFAULT_LOOP_SEC : Nat := 4

/-- `DEFAULT_LOOP_LEN = SAMPLE_RATE * DEFAULT_LOOP_SEC` from `src/loop.py`. -/
def DEFAULT_LOOP_LEN : Nat := SAMPLE_RATE * DEFAULT_LOOP_SEC

/-- `VALID_POSITIONS = [x for x in range(1, 7)]` from `src/loop.py`. -/
def VALID_POSITIONS : List Nat := List.range' 1 6

/-- Python slice `l[a:b]` for `0 ≤ a ≤ b`: elements at indices
`a, …, b-1`, clamped to the list like Python slicing. -/
def pySlice (l : List ℚ) (a b : Nat) : List ℚ :=
  (l.drop a).take (b - a)

/-- One sample of `np.clip(out, -1.0, 1.0)`. -/
def clip1 (x : ℚ) : ℚ := min 1 (max (-1) x)

/-- `np.clip(out, -1.0, 1.0)` over a block. -/
def clip (l : List ℚ) : List ℚ := l.map clip1

/-- Elementwise numpy addition of two equal-length blocks. -/
def addLists (x y : List ℚ) : List ℚ := List.zipWith (· + ·) x y

/-- The mixing sum of `Loop._callback`:
`sum(track.track_data[a:b] for track in self.loop_tracks.values())`.
Python's `sum` starts from the integer `0`, which numpy broadcasts over the
block, so the embedding starts from a zero block of the slice length. -/
def mixTracks (tracks : List Track) (a b : Nat) : List ℚ :=
  (tracks.map fun t => pySlice t.track_data a b).foldl addLists
    (List.replicate (b - a) 0)

/-- Iterating `self.loop_tracks.values()` and touching `track.track_data`:
the first `None` slot raises `AttributeError` (`None` has no attribute
`track_data`), otherwise every track is produced in key order. -/
def seqTracks : List (Option Track) → Except PyError (List Track)
  | [] => .ok []
  | none :: _ => .error .attributeError
  | some t :: rest =>
    match seqTracks rest with
    | .error e => .error e
    | .ok ts => .ok (t :: ts)

/-- Dictionary lookup `self.loop_tracks[p]` on the dict with keys
`1..length`: raises `KeyError` outside that range. -/
def dictGet (l : List (Option Track)) (p : Nat) : Except PyError (Option Track) :=
  if 1 ≤ p ∧ p ≤ l.length then .ok (l.getD (p - 1) none) else .error .keyError

/-- Dictionary store `self.loop_tracks[p] = v` for a key already present. -/
def dictSet (l : List (Option Track)) (p : Nat) (v : Option Track) :
    List (Option Track) :=
  l.set (p - 1) v

/-- Numpy in-place accumulation `l[a:b] += xs` — the slice is replaced by
its elementwise sum with `xs`, everything else stays.  The callback's index
arithmetic guarantees the shapes agree (`a ≤ b ≤ l.length`,
`xs.length = b - a`), which is the case this models. -/
def addIntoSlice (l : List ℚ) (a b : Nat) (xs : List ℚ) : List ℚ :=
  l.take a ++ List.zipWith (· + ·) (pySlice l a b) xs ++ l.drop b

/-- The recording statement of `Loop._callback`:
`self.loop_tracks[self.recording_track].track_data[a:b] += xs`.
Raises `KeyError` if the armed key is outside the dict,
`AttributeError` if the armed slot holds `None`. -/
def recordInto (tracks : List (Option Track)) (r a b : Nat) (xs : List ℚ) :
    Except PyError (List (Option Track)) :=
  match dictGet tracks r with
  | .error e => .error e
  | .ok none => .error .attributeError
  | .ok (some t) =>
    .ok (dictSet tracks r (some { t with
      track_data := addIntoSlice t.track_data a b xs }))

/-- `Loop._callback(indata, outdata, frames, time, status)` from
`src/loop.py` lines 92-122, for a loop of `L` frames
(`DEFAULT_LOOP_LEN` in the source).  Returns the output block written to
`outdata` together with the updated state, or the Python exception the
callback raises.  Faithful points: the first mix is computed before the
recording write; the wraparound mix re-reads `loop_tracks.values()` after
the recording write (`tracks1`); the wraparound recording slice
`indata[chunksize:frames+chunksize]` clamps to `indata[chunksize:frames]`
exactly as Python slicing does. -/
def callback (L : Nat) (st : Loop) (indata : List ℚ) (frames : Nat) :
    Except PyError (List ℚ × Loop) :=
  let chunksize := min (L - st.current_frame) frames
  let end_frame := st.current_frame + chunksize
  match seqTracks st.loop_tracks with
  | .error e => .error e
  | .ok tracks =>
    let outFirst := clip (mixTracks tracks st.current_frame end_frame)
    match (if st.is_recording then
            recordInto st.loop_tracks st.recording_track st.current_frame
              end_frame (pySlice indata 0 chunksize)
          else .ok st.loop_tracks) with
    | .error e => .error e
    | .ok tracks1 =>
      if chunksize < frames then
        let end_frame2 := frames - chunksize
        match seqTracks tracks1 with
        | .error e => .error e
        | .ok tracksW =>
          let outSecond := clip (mixTracks tracksW 0 end_frame2)
          match (if st.is_recording then
                  recordInto tracks1 st.recording_track 0 end_frame2
                    (pySlice indata chunksize (frames + chunksize))
                else .ok tracks1) with
          | .error e => .error e
          | .ok tracks2 =>
            .ok (outFirst ++ outSecond,
              { st with loop_tracks := tracks2, current_frame := end_frame2 })
      else
        .ok (outFirst,
          { st with loop_tracks := tracks1,
                    current_frame := st.current_frame + chunksize })

/-- `Loop.check_position` from `src/loop.py`: raises
`ValueError("Invalid position")` outside `VALID_POSITIONS`. -/
def check_position (position : Nat) : Except PyError Nat :=
  if position ∈ VALID_POSITIONS then .ok position else .error .valueError

/-- `Loop.remove_track` from `src/loop.py` lines 251-263: validates the
position then stores `None` in the slot. -/
def remove_track (st : Loop) (position : Nat) : Except PyError Loop :=
  match check_position position with
  | .error e => .error e
  | .ok _ => .ok { st with loop_tracks := dictSet st.loop_tracks position none }

/-- `Loop.move_track(position_2, position_1)` from `src/loop.py` lines
265-299.  Both positions are validated; if at least one slot is `None` the
two slots are swapped.  When both slots are occupied the source evaluates
`track1.channel_config() != track2.channel_config()` — but `channel_config`
is an integer attribute assigned in `Track.__init__`, not a method, so the
call raises `TypeError: 'int' object is not callable` before any comparison
or swap can happen.  The comparison and the second swap in the source are
therefore unreachable. -/
def move_track (st : Loop) (position_2 position_1 : Nat) : Except PyError Loop :=
  match check_position position_1 with
  | .error e => .error e
  | .ok _ =>
  match check_position position_2 with
  | .error e => .error e
  | .ok _ =>
  match dictGet st.loop_tracks position_1 with
  | .error e => .error e
  | .ok track1 =>
  match dictGet st.loop_tracks position_2 with
  | .error e => .error e
  | .ok track2 =>
  if track1 = none ∨ track2 = none then
    .ok { st with loop_tracks := (dictSet (dictSet st.loop_tracks position_1 track2) position_2 track1) }
  else
    .error .typeErrorNotCallable

/-- `Loop.set_recording_track` from `src/loop.py` lines 168-178: stores the
given position with no validation of any kind. -/
def set_recording_track (st : Loop) (track : Nat) : Except PyError Loop :=
  .ok { st with recording_track := track }

/-- `Track.set_volume` from `src/track.py` lines 186-199.  For a volume
outside `[0.0, 1.0]` the source evaluates `Exception("Volume must be
between 0.0 and 1.0")` — constructing the exception object without raising
it — and then stores the volume regardless, so the operation always
succeeds. -/
def set_volume (t : Track) (volume : ℚ) : Except PyError Track :=
  .ok { t with track_volume := volume }

/-! ### Spec-side description of the mix

The raw mixed sample at a frame index and the clipped mixed block over a
frame interval, used to state what the callback writes. -/

/-- The raw (unclipped, unscaled) mix at frame `i`: the sum over the tracks
of their sample at index `i`. -/
def rawMixAt (tracks : List Track) (i : Nat) : ℚ :=
  (tracks.map fun t => t.track_data.getD i 0).sum

/-- The mixed audio over the frame interval `[a, b)`: at each frame the raw
mix, hard-clipped to `[-1, 1]`. -/
def mixedOver (tracks : List Track) (a b : Nat) : List ℚ :=
  (List.range (b - a)).map fun k => clip1 (rawMixAt tracks (a + k))

/-! ### Helper lemmas -/

theorem seqTracks_map_some (ts : List Track) : seqTracks (ts.map some) = .ok ts := by
  induction ts with
  | nil => rfl
  | cons t ts ih => simp [seqTracks, ih]

theorem eq_map_some_of_seqTracks_ok {l : List (Option Track)} {ts : List Track}
    (h : seqTracks l = .ok ts) : l = ts.map some := by
  induction l generalizing ts with
  | nil =>
    simp only [seqTracks] at h
    cases h
    rfl
  | cons hd tl ih =>
    cases hd with
    | none => simp [seqTracks] at h
    | some t =>
      simp only [seqTracks] at h
      cases hts : seqTracks tl with
      | error e => rw [hts] at h; cases h
      | ok ts2 =>
        rw [hts] at h
        cases h
        simp [ih hts]

theorem list_set_self {α : Type} (l : List α) (j : Nat) (x : α)
    (h : l[j]? = some x) : l.set j x = l := by
  induction l generalizing j with
  | nil => simp at h
  | cons hd tl ih =>
    cases j with
    | zero =>
      simp only [List.getElem?_cons_zero, Option.some_inj] at h
      simp [h]
    | succ n =>
      simp only [List.getElem?_cons_succ] at h
      simp [ih n h]

theorem pySlice_length {l : List ℚ} {a b : Nat} (hab : a ≤ b)
    (hb : b ≤ l.length) : (pySlice l a b).length = b - a := by
  simp only [pySlice, List.length_take, List.length_drop]
  omega

theorem pySlice_getD {l : List ℚ} {a b k : Nat} (hk : k < b - a) :
    (pySlice l a b).getD k 0 = l.getD (a + k) 0 := by
  simp only [pySlice, List.getD_eq_getElem?_getD, List.getElem?_take, hk,
    if_pos, List.getElem?_drop]

theorem foldl_addLists_eq (ls : List (List ℚ)) (n : Nat)
    (hls : ∀ l ∈ ls, l.length = n) (acc : List ℚ) (hacc : acc.length = n) :
    ls.foldl addLists acc =
      (List.range n).map fun k => acc.getD k 0 + (ls.map fun l => l.getD k 0).sum := by
  induction ls generalizing acc with
  | nil =>
    simp only [List.foldl_nil, List.map_nil, List.sum_nil, add_zero]
    apply List.ext_getElem (by simp [hacc])
    intro k h1 h2
    simp only [List.getElem_map, List.getElem_range, List.getD_eq_getElem?_getD,
      List.getElem?_eq_getElem h1, Option.getD_some]
  | cons hd tl ih =>
    have hhd : hd.length = n := hls hd (List.mem_cons_self _ _)
    have htl : ∀ l ∈ tl, l.length = n := fun l hl => hls l (List.mem_cons_of_mem _ hl)
    have hlen : (addLists acc hd).length = n := by
      simp only [addLists, List.length_zipWith]
      omega
    rw [List.foldl_cons, ih htl _ hlen]
    apply List.map_congr_left
    intro k hk
    simp only [List.mem_range] at hk
    have h1 : (addLists acc hd).getD k 0 = acc.getD k 0 + hd.getD k 0 := by
      have hz : k < (addLists acc hd).length := by omega
      simp only [List.getD_eq_getElem?_getD, List.getElem?_eq_getElem hz,
        List.getElem?_eq_getElem (show k < acc.length by omega),
        List.getElem?_eq_getElem (show k < hd.length by omega), Option.getD_some]
      simp only [addLists]
      rw [List.getElem_zipWith]
    rw [h1]
    simp only [List.map_cons, List.sum_cons]
    ring

theorem mixTracks_eq_map (tracks : List Track) (a b : Nat) (hab : a ≤ b)
    (hlen : ∀ t ∈ tracks, b ≤ t.track_data.length) :
    mixTracks tracks a b = (List.range (b - a)).map fun k => rawMixAt tracks (a + k) := by
  rw [mixTracks, foldl_addLists_eq _ (b - a) ?_ _ (List.length_replicate _ _)]
  · apply List.map_congr_left
    intro k hk
    simp only [List.mem_range] at hk
    have hz : (List.replicate (b - a) (0 : ℚ)).getD k 0 = 0 := by
      simp [List.getD_eq_getElem?_getD, List.getElem?_replicate, hk]
    rw [hz, zero_add, List.map_map, rawMixAt]
    congr 1
    apply List.map_congr_left
    intro t _
    exact pySlice_getD hk
  · intro l hl
    simp only [List.mem_map] at hl
    obtain ⟨t, ht, rfl⟩ := hl
    exact pySlice_length hab (hlen t ht)

theorem clip_mixTracks (tracks : List Track) (a b : Nat) (hab : a ≤ b)
    (hlen : ∀ t ∈ tracks, b ≤ t.track_data.length) :
    clip (mixTracks tracks a b) = mixedOver tracks a b := by
  rw [mixTracks_eq_map tracks a b hab hlen, clip, mixedOver, List.map_map]
  rfl

theorem mixTracks_set_eq (tracks : List Track) (j : Nat) (t2 : Track)
    (a b : Nat) (told : Track) (hj : tracks[j]? = some told)
    (hsl : pySlice t2.track_data a b = pySlice told.track_data a b) :
    mixTracks (tracks.set j t2) a b = mixTracks tracks a b := by
  unfold mixTracks
  rw [List.map_set, hsl, list_set_self]
  rw [List.getElem?_map, hj]
  rfl

theorem pySlice_addIntoSlice_pref (l : List ℚ) (a b e : Nat) (x : List ℚ)
    (he : e ≤ a) (ha : a ≤ l.length) :
    pySlice (addIntoSlice l a b x) 0 e = pySlice l 0 e := by
  unfold addIntoSlice pySlice
  simp only [List.drop_zero, Nat.sub_zero]
  rw [List.append_assoc,
    List.take_append_of_le_length (by simp only [List.length_take]; omega),
    List.take_take]
  congr 1
  omega

theorem addIntoSlice_twice (l : List ℚ) (a b : Nat) (x y : List ℚ)
    (hab : a ≤ b) (hb : b ≤ l.length) (hx : x.length = b - a) :
    addIntoSlice (addIntoSlice l a b x) a b y =
      l.take a ++
        List.zipWith (· + ·) (List.zipWith (· + ·) (pySlice l a b) x) y ++
        l.drop b := by
  have hA : (l.take a).length = a := by simp only [List.length_take]; omega
  have hB : (List.zipWith (· + ·) (pySlice l a b) x).length = b - a := by
    simp only [List.length_zipWith, pySlice_length hab hb, hx]
    omega
  have hM : addIntoSlice l a b x =
      l.take a ++ (List.zipWith (· + ·) (pySlice l a b) x ++ l.drop b) := by
    rw [addIntoSlice, List.append_assoc]
  have hdropa : (addIntoSlice l a b x).drop a =
      List.zipWith (· + ·) (pySlice l a b) x ++ l.drop b := by
    rw [hM, List.drop_left' hA]
  have hslice : pySlice (addIntoSlice l a b x) a b =
      List.zipWith (· + ·) (pySlice l a b) x := by
    rw [pySlice, hdropa, List.take_left' hB]
  have hdropb : (addIntoSlice l a b x).drop b = l.drop b := by
    rw [addIntoSlice,
      List.drop_left' (by simp only [List.length_append, hA, hB]; omega)]
  conv_lhs => rw [addIntoSlice]
  rw [hslice, hdropb, hM, List.take_left' hA]

theorem mem_clip_bounds {s : ℚ} {l : List ℚ} (h : s ∈ clip l) :
    -1 ≤ s ∧ s ≤ 1 := by
  simp only [clip, List.mem_map] at h
  obtain ⟨x, _, rfl⟩ := h
  exact ⟨le_min (by norm_num) (le_max_left _ _), min_le_left _ _⟩

theorem dictGet_map_some {ts : List Track} {r : Nat} (h1 : 1 ≤ r)
    (hlt : r - 1 < ts.length) :
    dictGet (ts.map some) r = .ok (some (ts.get ⟨r - 1, hlt⟩)) := by
  simp only [dictGet, List.length_map]
  rw [if_pos ⟨h1, by omega⟩, List.getD_eq_getElem?_getD, List.getElem?_map,
    List.getElem?_eq_getElem hlt]
  rfl

theorem dictGet_dictSet_self {l : List (Option Track)} {r : Nat}
    {v : Option Track} (h1 : 1 ≤ r) (h2 : r ≤ l.length) :
    dictGet (dictSet l r v) r = .ok v := by
  simp only [dictGet, dictSet, List.length_set]
  rw [if_pos ⟨h1, h2⟩, List.getD_eq_getElem?_getD,
    List.getElem?_set_self (by omega)]
  rfl

/-! ### Claim theorems -/

/-- C1: for every loop length `L`, playhead `p < L` with `p + frames > L`
and `frames ≤ L`, one invocation of the audio callback writes an output
block equal to the concatenation of the mixed audio over `[p, L)` followed
by the mixed audio over `[0, (p+frames) mod L)`, and leaves the playhead
equal to `(p+frames) mod L`.  Holds for any recording state whose armed
position is a valid key, on any fully occupied loop whose track buffers all
have length `L`. -/
theorem C1_wraparound (L frames : Nat) (st : Loop) (tracks : List Track)
    (indata : List ℚ)
    (hocc : seqTracks st.loop_tracks = .ok tracks)
    (hlen : ∀ t ∈ tracks, t.track_data.length = L)
    (hp : st.current_frame < L)
    (hwrap : L < st.current_frame + frames)
    (hfr : frames ≤ L)
    (hin : indata.length = frames)
    (hrec : st.is_recording = true →
      1 ≤ st.recording_track ∧ st.recording_track ≤ st.loop_tracks.length) :
    (callback L st indata frames).toOption.map
        (fun r => (r.1, r.2.current_frame)) =
      some (mixedOver tracks st.current_frame L ++
              mixedOver tracks 0 ((st.current_frame + frames) % L),
            (st.current_frame + frames) % L) := by
  have hmap := eq_map_some_of_seqTracks_ok hocc
  have hLlen : st.loop_tracks.length = tracks.length := by
    rw [hmap, List.length_map]
  have hchunk : min (L - st.current_frame) frames = L - st.current_frame := by
    omega
  have hend : st.current_frame + (L - st.current_frame) = L := by omega
  have hlt : L - st.current_frame < frames := by omega
  have hend2le : frames - (L - st.current_frame) ≤ st.current_frame := by omega
  have hmod : (st.current_frame + frames) % L =
      frames - (L - st.current_frame) := by
    rw [Nat.mod_eq_sub_mod (by omega), Nat.mod_eq_of_lt (by omega)]
    omega
  have hmix1 : clip (mixTracks tracks st.current_frame L) =
      mixedOver tracks st.current_frame L :=
    clip_mixTracks _ _ _ (by omega) (fun t ht => by rw [hlen t ht])
  have hmix2 : clip (mixTracks tracks 0 (frames - (L - st.current_frame))) =
      mixedOver tracks 0 (frames - (L - st.current_frame)) :=
    clip_mixTracks _ _ _ (by omega) (fun t ht => by rw [hlen t ht]; omega)
  cases hr : st.is_recording with
  | false =>
    simp only [callback, hocc, hr, Bool.false_eq_true, if_false, hchunk, hend]
    rw [if_pos hlt]
    simp only [hocc, hmix1, hmix2, Except.toOption, Option.map_some']
    rw [hmod]
  | true =>
    obtain ⟨hr1, hr2⟩ := hrec hr
    have hrlt : st.recording_track - 1 < tracks.length := by omega
    have hget : dictGet st.loop_tracks st.recording_track =
        .ok (some (tracks.get ⟨st.recording_track - 1, hrlt⟩)) := by
      rw [hmap]
      exact dictGet_map_some hr1 hrlt
    have ht0mem : tracks.get ⟨st.recording_track - 1, hrlt⟩ ∈ tracks :=
      List.get_mem _ _ _
    have ht0len :
        (tracks.get ⟨st.recording_track - 1, hrlt⟩).track_data.length = L :=
      hlen _ ht0mem
    simp only [callback, hocc, hr, if_true, hchunk, hend, recordInto, hget]
    rw [if_pos hlt]
    have htr1 : dictSet st.loop_tracks st.recording_track
        (some { tracks.get ⟨st.recording_track - 1, hrlt⟩ with
          track_data := addIntoSlice
            (tracks.get ⟨st.recording_track - 1, hrlt⟩).track_data
            st.current_frame L
            (pySlice indata 0 (L - st.current_frame)) }) =
        (tracks.set (st.recording_track - 1)
          { tracks.get ⟨st.recording_track - 1, hrlt⟩ with
            track_data := addIntoSlice
              (tracks.get ⟨st.recording_track - 1, hrlt⟩).track_data
              st.current_frame L
              (pySlice indata 0 (L - st.current_frame)) }).map some := by
      rw [hmap, dictSet, ← List.map_set]
    rw [htr1, seqTracks_map_some]
    have hsl : pySlice (addIntoSlice
          (tracks.get ⟨st.recording_track - 1, hrlt⟩).track_data
          st.current_frame L (pySlice indata 0 (L - st.current_frame)))
          0 (frames - (L - st.current_frame)) =
        pySlice (tracks.get ⟨st.recording_track - 1, hrlt⟩).track_data
          0 (frames - (L - st.current_frame)) :=
      pySlice_addIntoSlice_pref _ _ _ _ _ hend2le (by omega)
    have hmixset : mixTracks (tracks.set (st.recording_track - 1)
        { tracks.get ⟨st.recording_track - 1, hrlt⟩ with
          track_data := addIntoSlice
            (tracks.get ⟨st.recording_track - 1, hrlt⟩).track_data
            st.current_frame L
            (pySlice indata 0 (L - st.current_frame)) })
        0 (frames - (L - st.current_frame)) =
        mixTracks tracks 0 (frames - (L - st.current_frame)) := by
      apply mixTracks_set_eq _ _ _ _ _ (tracks.get ⟨st.recording_track - 1, hrlt⟩)
        (List.getElem?_eq_getElem hrlt) hsl
    have hget2 : dictGet (dictSet st.loop_tracks st.recording_track
        (some { tracks.get ⟨st.recording_track - 1, hrlt⟩ with
          track_data := addIntoSlice
            (tracks.get ⟨st.recording_track - 1, hrlt⟩).track_data
            st.current_frame L
            (pySlice indata 0 (L - st.current_frame)) }))
        st.recording_track =
        .ok (some { tracks.get ⟨st.recording_track - 1, hrlt⟩ with
          track_data := addIntoSlice
            (tracks.get ⟨st.recording_track - 1, hrlt⟩).track_data
            st.current_frame L
            (pySlice indata 0 (L - st.current_frame)) }) :=
      dictGet_dictSet_self hr1 hr2
    rw [← htr1, hget2]
    simp only [hmixset, hmix1, hmix2, Except.toOption, Option.map_some']
    rw [hmod]

/-- A track with unit volume, mono config and a given buffer. -/
def mkTrack (data : List ℚ) : Track := ⟨1, 1, data⟩

/-- Concrete tracks for the C1 witness: loop length 4. -/
def c1Tracks : List Track :=
  [mkTrack [1/2, -1/2, 1/4, 2], mkTrack [0, 0, 0, 0], mkTrack [0, 0, 0, 0],
   mkTrack [0, 0, 0, 0], mkTrack [0, 0, 0, 0], mkTrack [0, 0, 0, 0]]

/-- Concrete state for the C1 witness: playhead 2, not recording. -/
def c1State : Loop := ⟨c1Tracks.map some, 2, false, 1⟩

/-- Witness for C1 at `L = 4`, `p = 2`, `frames = 3` (so `p + frames = 5`
wraps to playhead `1`). -/
theorem C1_witness :
    (callback 4 c1State [0, 0, 0] 3).toOption.map
        (fun r => (r.1, r.2.current_frame)) =
      some (mixedOver c1Tracks 2 4 ++ mixedOver c1Tracks 0 ((2 + 3) % 4),
        (2 + 3) % 4) :=
  C1_wraparound 4 3 c1State c1Tracks [0, 0, 0] rfl (by decide) (by decide)
    (by decide) (by decide) (by decide) (by decide)

/-- Claim-side mixer for C2, following the spec's words: the elementwise
sum over the non-muted tracks of each track's sample scaled by that track's
volume and pan gains.  The source `Track` has no mute flag and no pan
attribute, so every track counts as non-muted and the pan gain is one;
volume is `track_volume`. -/
def specMixedAt (tracks : List Track) (i : Nat) : ℚ :=
  (tracks.map fun t => t.track_volume * t.track_data.getD i 0).sum

/-- Claim-side mixed block for C2 over `[a, b)`, clipped to `[-1, 1]`. -/
def specMixedOver (tracks : List Track) (a b : Nat) : List ℚ :=
  (List.range (b - a)).map fun k => clip1 (specMixedAt tracks (a + k))

/-- Concrete tracks for the C2 counterexample: track 1 has volume `1/2` and
samples `1/2`; the other five are silent. -/
def c2Tracks : List Track :=
  [⟨1/2, 1, [1/2, 1/2]⟩, mkTrack [0, 0], mkTrack [0, 0], mkTrack [0, 0],
   mkTrack [0, 0], mkTrack [0, 0]]

/-- Concrete state for the C2 counterexample. -/
def c2State : Loop := ⟨c2Tracks.map some, 0, false, 1⟩

/-- C2 counterexample: the callback's output block is the clip of the
unscaled sum (`1/2` per frame), not the volume-scaled sum the claim
describes (`1/4` per frame), so the claim fails at this input. -/
theorem C2_counterexample :
    (callback 2 c2State [0, 0] 2).toOption.map (fun r => r.1.take 2) =
        some [1/2, 1/2] ∧
      specMixedOver c2Tracks 0 2 = [1/4, 1/4] ∧
      ([1/2, 1/2] : List ℚ) ≠ [1/4, 1/4] := by
  refine ⟨?_, ?_, by norm_num⟩
  · simp only [callback, c2State, c2Tracks, mkTrack, seqTracks, mixTracks,
      addLists, pySlice, clip, clip1, Except.toOption, List.map_cons,
      List.map_nil, List.foldl_cons, List.foldl_nil, List.zipWith_cons_cons,
      List.zipWith_nil_right, List.zipWith_nil_left, List.replicate,
      List.drop_zero, List.take_succ_cons, List.take_zero]
    norm_num [clip1, min_def, max_def]
  · simp only [specMixedOver, specMixedAt, c2Tracks, mkTrack, clip1,
      List.range_succ, List.map_cons, List.map_nil, List.sum_cons,
      List.sum_nil, min_def, max_def]
    norm_num

theorem dictGet_ok_bounds {l : List (Option Track)} {r : Nat}
    {v : Option Track} (h : dictGet l r = .ok v) : 1 ≤ r ∧ r ≤ l.length := by
  by_cases hc : 1 ≤ r ∧ r ≤ l.length
  · exact hc
  · rw [dictGet, if_neg hc] at h
    cases h

/-- C2 (amended): for every callback invocation on a fully occupied loop,
the first `chunk` frames of the output block equal the elementwise sum over
all tracks of each track's buffer slice `[p, p+chunk)`, hard-clipped to
`[-1, 1]`; mute, volume and pan are not consulted (the source `Track` has
no mute or pan attribute and `track_volume` is not read by the callback),
so muting cannot silence the output. -/
theorem C2_mix_unscaled (L frames : Nat) (st : Loop) (tracks : List Track)
    (indata : List ℚ)
    (hocc : seqTracks st.loop_tracks = .ok tracks)
    (hlen : ∀ t ∈ tracks, t.track_data.length = L)
    (hp : st.current_frame ≤ L)
    (hrec : st.is_recording = true →
      1 ≤ st.recording_track ∧ st.recording_track ≤ st.loop_tracks.length) :
    (callback L st indata frames).toOption.map
        (fun r => r.1.take (min (L - st.current_frame) frames)) =
      some (mixedOver tracks st.current_frame
        (st.current_frame + min (L - st.current_frame) frames)) := by
  have hmap := eq_map_some_of_seqTracks_ok hocc
  have hmix1 : clip (mixTracks tracks st.current_frame
      (st.current_frame + min (L - st.current_frame) frames)) =
      mixedOver tracks st.current_frame
        (st.current_frame + min (L - st.current_frame) frames) :=
    clip_mixTracks _ _ _ (by omega) (fun t ht => by rw [hlen t ht]; omega)
  have hlen1 : (mixedOver tracks st.current_frame
      (st.current_frame + min (L - st.current_frame) frames)).length =
      min (L - st.current_frame) frames := by
    simp only [mixedOver, List.length_map, List.length_range]
    omega
  have htake : ∀ rest : List ℚ,
      (mixedOver tracks st.current_frame
          (st.current_frame + min (L - st.current_frame) frames) ++ rest).take
          (min (L - st.current_frame) frames) =
        mixedOver tracks st.current_frame
          (st.current_frame + min (L - st.current_frame) frames) :=
    fun rest => List.take_left' hlen1
  cases hr : st.is_recording with
  | false =>
    by_cases hw : min (L - st.current_frame) frames < frames
    · simp only [callback, hocc, hr, Bool.false_eq_true, if_false]
      rw [if_pos hw]
      simp only [hocc, hmix1, Except.toOption, Option.map_some']
      rw [htake]
    · simp only [callback, hocc, hr, Bool.false_eq_true, if_false]
      rw [if_neg hw]
      simp only [hmix1, Except.toOption, Option.map_some']
      rw [List.take_of_length_le (by omega)]
  | true =>
    obtain ⟨hr1, hr2⟩ := hrec hr
    have hrlt : st.recording_track - 1 < tracks.length := by
      rw [hmap, List.length_map] at hr2
      omega
    have hget : dictGet st.loop_tracks st.recording_track =
        .ok (some (tracks.get ⟨st.recording_track - 1, hrlt⟩)) := by
      rw [hmap]
      exact dictGet_map_some hr1 hrlt
    have htr1 : ∀ t1 : Track,
        dictSet st.loop_tracks st.recording_track (some t1) =
          (tracks.set (st.recording_track - 1) t1).map some := by
      intro t1
      rw [hmap, dictSet, ← List.map_set]
    by_cases hw : min (L - st.current_frame) frames < frames
    · simp only [callback, hocc, hr, if_true, recordInto, hget]
      rw [if_pos hw]
      rw [htr1, seqTracks_map_some]
      rw [← htr1, dictGet_dictSet_self hr1 hr2]
      simp only [hmix1, Except.toOption, Option.map_some']
      rw [htake]
    · simp only [callback, hocc, hr, if_true, recordInto, hget]
      rw [if_neg hw]
      simp only [hmix1, Except.toOption, Option.map_some']
      rw [List.take_of_length_le (by omega)]

/-- Concrete tracks for the C2 witness: each has sample `2` at frame 0. -/
def c2wTracks : List Track :=
  [mkTrack [2, 0], mkTrack [2, 0], mkTrack [2, 0], mkTrack [2, 0],
   mkTrack [2, 0], mkTrack [2, 0]]

/-- Concrete state for the C2 witness: playhead 0, recording armed at 1. -/
def c2wState : Loop := ⟨c2wTracks.map some, 0, true, 1⟩

/-- Witness for the amended C2 at a concrete recording state: six tracks
with samples `2` at the playhead, so the unscaled sum `12` clips to `1`. -/
theorem C2_witness :
    (callback 2 c2wState [5] 1).toOption.map
        (fun r => r.1.take (min (2 - c2wState.current_frame) 1)) =
      some (mixedOver c2wTracks c2wState.current_frame
        (c2wState.current_frame + min (2 - c2wState.current_frame) 1)) :=
  C2_mix_unscaled 2 1 c2wState c2wTracks [5] rfl (by decide) (by decide)
    (by decide)

/-- C3: recording into an armed track twice over the same region (recording
on, no clearing in between, the playhead returned to the region for the
second pass) leaves the stored buffer equal to the original with the region
replaced by `original + input_pass_1 + input_pass_2` — the callback
accumulates with `+=`, never overwrites, and stores the sum unclipped
(clipping happens only on the mixed output block, never on storage). -/
theorem C3_overdub (L frames : Nat) (st : Loop) (tracks : List Track)
    (x y : List ℚ) (t : Track)
    (hocc : seqTracks st.loop_tracks = .ok tracks)
    (hrec : st.is_recording = true)
    (harm : dictGet st.loop_tracks st.recording_track = .ok (some t))
    (hlen : t.track_data.length = L)
    (hnw : st.current_frame + frames ≤ L)
    (hx : x.length = frames) (hy : y.length = frames) :
    (callback L st x frames).toOption.bind (fun r1 =>
      (callback L { r1.2 with current_frame := st.current_frame } y
          frames).toOption.bind
        (fun r2 => (dictGet r2.2.loop_tracks st.recording_track).toOption)) =
      some (some { t with track_data :=
        (t.track_data.take st.current_frame ++
          List.zipWith (· + ·)
            (List.zipWith (· + ·)
              (pySlice t.track_data st.current_frame
                (st.current_frame + frames)) x) y ++
          t.track_data.drop (st.current_frame + frames)) }) := by
  have hmap := eq_map_some_of_seqTracks_ok hocc
  obtain ⟨hr1, hr2⟩ := dictGet_ok_bounds harm
  have hchunk : min (L - st.current_frame) frames = frames := by omega
  have hx0 : pySlice x 0 frames = x := by
    rw [pySlice, List.drop_zero, Nat.sub_zero, ← hx, List.take_length]
  have hy0 : pySlice y 0 frames = y := by
    rw [pySlice, List.drop_zero, Nat.sub_zero, ← hy, List.take_length]
  have htr1 : ∀ t1 : Track,
      dictSet st.loop_tracks st.recording_track (some t1) =
        (tracks.set (st.recording_track - 1) t1).map some := by
    intro t1
    rw [hmap, dictSet, ← List.map_set]
  have hlenset : ∀ t1 : Track,
      (dictSet st.loop_tracks st.recording_track (some t1)).length =
        st.loop_tracks.length := by
    intro t1
    rw [dictSet, List.length_set]
  simp only [callback, hocc, hrec, if_true, hchunk, recordInto, harm, hx0]
  rw [if_neg (lt_irrefl frames)]
  simp only [Except.toOption, Option.some_bind]
  rw [htr1, seqTracks_map_some, ← htr1]
  simp only [hrec, if_true, hchunk, recordInto, dictGet_dictSet_self hr1 hr2,
    hy0]
  rw [if_neg (lt_irrefl frames)]
  simp only [Except.toOption, Option.some_bind]
  rw [dictGet_dictSet_self hr1 (by rw [hlenset]; exact hr2)]
  simp only [Except.toOption, Option.some_bind]
  rw [addIntoSlice_twice t.track_data st.current_frame
    (st.current_frame + frames) x y (by omega) (by rw [hlen]; exact hnw)
    (by omega)]

/-- The armed track for the C3 witness. -/
def c3T : Track := mkTrack [1/2, 1/2]

/-- Concrete tracks for the C3 witness. -/
def c3Tracks : List Track :=
  [c3T, mkTrack [0, 0], mkTrack [0, 0], mkTrack [0, 0], mkTrack [0, 0],
   mkTrack [0, 0]]

/-- Concrete state for the C3 witness: playhead 1, recording armed at
position 1. -/
def c3State : Loop := ⟨c3Tracks.map some, 1, true, 1⟩

/-- Witness for C3: two passes with inputs `3` and `5` over frame 1 leave
the stored sample `1/2 + 3 + 5` — unclipped, far outside `[-1, 1]`. -/
theorem C3_witness :
    (callback 2 c3State [3] 1).toOption.bind (fun r1 =>
      (callback 2 { r1.2 with current_frame := c3State.current_frame } [5]
          1).toOption.bind
        (fun r2 =>
          (dictGet r2.2.loop_tracks c3State.recording_track).toOption)) =
      some (some { c3T with track_data :=
        (c3T.track_data.take c3State.current_frame ++
          List.zipWith (· + ·)
            (List.zipWith (· + ·)
              (pySlice c3T.track_data c3State.current_frame
                (c3State.current_frame + 1)) [3]) [5] ++
          c3T.track_data.drop (c3State.current_frame + 1)) }) :=
  C3_overdub 2 1 c3State c3Tracks [3] [5] c3T rfl rfl rfl rfl (by decide)
    rfl rfl

/-- C4: every sample of the output block written by a completed callback
invocation lies in `[-1, 1]`, whatever the number of tracks, their volumes
or their contents — the callback clips each mixed segment with
`np.clip(out, -1.0, 1.0)` before writing it. -/
theorem C4_clip (L frames : Nat) (st : Loop) (indata : List ℚ)
    (out : List ℚ) (st2 : Loop)
    (h : callback L st indata frames = .ok (out, st2)) :
    ∀ s ∈ out, -1 ≤ s ∧ s ≤ 1 := by
  intro s hs
  simp only [callback] at h
  split at h
  · cases h
  · split at h
    · cases h
    · split at h
      · split at h
        · cases h
        · split at h
          · cases h
          · injection h with h12
            cases h12
            rcases List.mem_append.mp hs with hm | hm
            · exact mem_clip_bounds hm
            · exact mem_clip_bounds hm
      · injection h with h12
        cases h12
        exact mem_clip_bounds hs

/-- Concrete state for the C4 witness: six tracks summing to `12` at the
playhead, clipped to `1` on output. -/
def c4State : Loop := ⟨c2wTracks.map some, 0, false, 1⟩

/-- The state after the C4 witness invocation. -/
def c4StateAfter : Loop := ⟨c2wTracks.map some, 1, false, 1⟩

/-- Witness for C4 at a concrete invocation whose output block is `[1]`. -/
theorem C4_witness : -1 ≤ (1 : ℚ) ∧ (1 : ℚ) ≤ 1 :=
  C4_clip 2 1 c4State [0] [1] c4StateAfter
    (by
      simp only [callback, c4State, c4StateAfter, c2wTracks, mkTrack,
        seqTracks, mixTracks, addLists, pySlice, clip, clip1,
        List.map_cons, List.map_nil, List.foldl_cons, List.foldl_nil,
        List.zipWith_cons_cons, List.zipWith_nil_right,
        List.zipWith_nil_left, List.replicate, List.drop_zero,
        List.take_succ_cons, List.take_zero]
      norm_num [clip1, min_def, max_def])
    1 (List.mem_singleton.mpr rfl)

/-! ### Scheduler (`src/demos/draft_class_structures.py`) -/

/-- From `src/demos/draft_class_structures.py`, class `Event`: the two
attributes its `__lt__` consults.  The other attributes (`event_track`,
`event_loop`, `event_action`) are object and callable references that play
no part in ordering or scheduling and are omitted. -/
structure Event where
  event_id : Nat
  event_due_sample : Nat
  deriving Repr, DecidableEq

/-- `Event.__lt__` (lines 418-440): compares by `event_due_sample`, then
breaks ties by `event_id`, returning `False` when both are equal. -/
def eventLT (a b : Event) : Bool :=
  if b.event_due_sample < a.event_due_sample then false
  else if a.event_due_sample < b.event_due_sample then true
  else if a.event_id < b.event_id then true
  else false

/-- The non-strict `(due_sample, event_id)` lexicographic order — what the
spec's "ascending `(due_sample, event_id)` order" means. -/
def eventLE (a b : Event) : Prop :=
  a.event_due_sample < b.event_due_sample ∨
    (a.event_due_sample = b.event_due_sample ∧ a.event_id ≤ b.event_id)

/-- `heapq.heappop` removes and returns the least queue element w.r.t.
`Event.__lt__`; the binary-heap layout is internal to `heapq`, so popping
is modelled as removing a minimal element of the queue list. -/
def popMin : List Event → Option (Event × List Event)
  | [] => none
  | e :: es =>
    match popMin es with
    | none => some (e, [])
    | some (m, rest) =>
      if eventLT m e then some (m, e :: rest) else some (e, es)

/-- Fuel-indexed repeated popping for `empty_queue`. -/
def drainAux : Nat → List Event → List (Nat × Nat)
  | 0, _ => []
  | n + 1, q =>
    match popMin q with
    | none => []
    | some (e, rest) => (e.event_due_sample, e.event_id) :: drainAux n rest

/-- `TrackScheduler.empty_queue` (lines 305-320): pops every event off the
heap, returning `(due_sample, event_id)` pairs in pop order. -/
def empty_queue (q : List Event) : List (Nat × Nat) := drainAux q.length q

/-- Modelled from the spec: `pop_due(current_sample)` — §4.2 specifies
"repeatedly pops and returns all events whose
`due_sample <= current_sample`, in ascending `(due_sample, event_id)`
order"; the scheduler prototype under `src/` implements only `add_event`
and the unconditional `empty_queue`, not the cutoff variant.  This pops the
queue (via the source's `heappop`/`__lt__` order) while the least event is
due, returning the popped events in pop order plus the remaining queue.
The fuel argument bounds the recursion by the queue length. -/
def popDueAux (current_sample : Nat) : Nat → List Event → List Event × List Event
  | 0, q => ([], q)
  | n + 1, q =>
    match popMin q with
    | none => ([], q)
    | some (m, rest) =>
      if m.event_due_sample ≤ current_sample then
        (m :: (popDueAux current_sample n rest).1,
          (popDueAux current_sample n rest).2)
      else ([], q)

/-- Modelled from the spec: `pop_due(current_sample)` on a queue. -/
def pop_due (current_sample : Nat) (q : List Event) :
    List Event × List Event :=
  popDueAux current_sample q.length q

theorem popMin_eq_none {q : List Event} : popMin q = none ↔ q = [] := by
  cases q with
  | nil => simp [popMin]
  | cons e es =>
    simp only [popMin]
    cases popMin es with
    | none => simp
    | some p =>
      obtain ⟨m, rest⟩ := p
      by_cases h : eventLT m e <;> simp [h]

theorem popMin_length {q : List Event} {m : Event} {rest : List Event}
    (h : popMin q = some (m, rest)) : rest.length + 1 = q.length := by
  induction q generalizing m rest with
  | nil => cases h
  | cons e es ih =>
    simp only [popMin] at h
    cases hes : popMin es with
    | none =>
      rw [hes] at h
      cases h
      rw [popMin_eq_none.mp hes]
      rfl
    | some p =>
      obtain ⟨m2, rest2⟩ := p
      rw [hes] at h
      dsimp only at h
      by_cases hlt : eventLT m2 e
      · rw [if_pos hlt] at h
        cases h
        have := ih hes
        simp only [List.length_cons] at *
        omega
      · rw [if_neg hlt] at h
        cases h
        rfl

theorem popMin_perm {q : List Event} {m : Event} {rest : List Event}
    (h : popMin q = some (m, rest)) : q.Perm (m :: rest) := by
  induction q generalizing m rest with
  | nil => cases h
  | cons e es ih =>
    simp only [popMin] at h
    cases hes : popMin es with
    | none =>
      rw [hes] at h
      cases h
      rw [popMin_eq_none.mp hes]
    | some p =>
      obtain ⟨m2, rest2⟩ := p
      rw [hes] at h
      dsimp only at h
      by_cases hlt : eventLT m2 e
      · rw [if_pos hlt] at h
        cases h
        exact ((ih hes).cons e).trans (List.Perm.swap _ _ _)
      · rw [if_neg hlt] at h
        cases h
        exact List.Perm.refl _

theorem eventLT_le {a b : Event} (h : eventLT a b = true) : eventLE a b := by
  simp only [eventLT] at h
  split_ifs at h with h1 h2 h3
  · exact Or.inl h2
  · exact Or.inr ⟨by omega, by omega⟩

theorem eventLE_of_lt_false {a b : Event} (h : eventLT a b = false) :
    eventLE b a := by
  simp only [eventLT] at h
  split_ifs at h with h1 h2 h3
  · exact Or.inl h1
  · exact Or.inr ⟨by omega, by omega⟩

theorem eventLE_trans {a b c : Event} (h1 : eventLE a b) (h2 : eventLE b c) :
    eventLE a c := by
  unfold eventLE at *
  omega

theorem eventLE_due {a b : Event} (h : eventLE a b) :
    a.event_due_sample ≤ b.event_due_sample := by
  unfold eventLE at h
  omega

theorem popMin_min {q : List Event} {m : Event} {rest : List Event}
    (h : popMin q = some (m, rest)) : ∀ x ∈ rest, eventLE m x := by
  induction q generalizing m rest with
  | nil => cases h
  | cons e es ih =>
    simp only [popMin] at h
    cases hes : popMin es with
    | none =>
      rw [hes] at h
      cases h
      intro x hx
      cases hx
    | some p =>
      obtain ⟨m2, rest2⟩ := p
      rw [hes] at h
      dsimp only at h
      by_cases hlt : eventLT m2 e
      · rw [if_pos hlt] at h
        cases h
        intro x hx
        rcases List.mem_cons.mp hx with rfl | hx2
        · exact eventLT_le hlt
        · exact ih hes x hx2
      · rw [if_neg hlt] at h
        cases h
        intro x hx
        have hltf : eventLT m2 e = false := by
          revert hlt
          cases eventLT m2 e <;> simp
        have hem2 : eventLE e m2 := eventLE_of_lt_false hltf
        rcases List.mem_cons.mp ((popMin_perm hes).subset hx) with rfl | hx3
        · exact hem2
        · exact eventLE_trans hem2 (ih hes x hx3)

theorem popDueAux_spec (cur : Nat) : ∀ (n : Nat) (q : List Event),
    q.length ≤ n →
    List.Sorted eventLE (popDueAux cur n q).1 ∧
      (popDueAux cur n q).1.Perm
        (q.filter fun e => e.event_due_sample ≤ cur) := by
  intro n
  induction n with
  | zero =>
    intro q hq
    have hql : q = [] := List.length_eq_zero.mp (by omega)
    subst hql
    simp [popDueAux]
  | succ n ih =>
    intro q hq
    simp only [popDueAux]
    cases hpm : popMin q with
    | none =>
      have hql : q = [] := popMin_eq_none.mp hpm
      subst hql
      simp
    | some p =>
      obtain ⟨m, rest⟩ := p
      dsimp only
      have hlenq := popMin_length hpm
      have hperm := popMin_perm hpm
      have hmin := popMin_min hpm
      by_cases hdue : m.event_due_sample ≤ cur
      · rw [if_pos hdue]
        obtain ⟨hs, hp2⟩ := ih rest (by omega)
        constructor
        · rw [List.sorted_cons]
          refine ⟨?_, hs⟩
          intro b hb
          exact hmin b (List.mem_of_mem_filter (hp2.subset hb))
        · have hqf : (q.filter fun e => e.event_due_sample ≤ cur).Perm
              ((m :: rest).filter fun e => e.event_due_sample ≤ cur) :=
            hperm.filter _
          rw [@List.filter_cons_of_pos _
            (fun e => decide (e.event_due_sample ≤ cur)) m rest
            (decide_eq_true hdue)] at hqf
          exact (hp2.cons m).trans hqf.symm
      · rw [if_neg hdue]
        have hfq : q.filter (fun e => e.event_due_sample ≤ cur) = [] := by
          rw [List.filter_eq_nil_iff]
          intro a ha
          have hma : m.event_due_sample ≤ a.event_due_sample := by
            rcases List.mem_cons.mp (hperm.subset ha) with rfl | h3
            · exact le_refl _
            · exact eventLE_due (hmin a h3)
          simp only [decide_eq_true_eq]
          omega
        rw [hfq]
        simp

/-- C5: popping the scheduler's queue at a current sample returns exactly
the events whose due sample is at or before it, in ascending
`(due_sample, event_id)` order; in particular for `e1(due=100, id=5)`,
`e2(due=100, id=3)`, `e3(due=50, id=9)`, popping at sample 200 returns them
in the order `e3, e2, e1`. -/
theorem C5_pop_due_order :
    (∀ (current_sample : Nat) (q : List Event),
        List.Sorted eventLE (pop_due current_sample q).1 ∧
          (pop_due current_sample q).1.Perm
            (q.filter fun e => e.event_due_sample ≤ current_sample)) ∧
      (pop_due 200 [⟨5, 100⟩, ⟨3, 100⟩, ⟨9, 50⟩]).1 =
        [⟨9, 50⟩, ⟨3, 100⟩, ⟨5, 100⟩] := by
  constructor
  · intro cur q
    exact popDueAux_spec cur q.length q le_rfl
  · decide

/-! ### MasterClock (`src/demos/draft_class_structures.py`) -/

/-- `MasterClock.get_samples_per_tick` (lines 504-512): the float
computation `int(round(self.samples_per_beat * self.note_subdivision))` is
abstracted as the integer `raw` it produces; the clamp
`if samples_per_tick < 1: samples_per_tick = 1` is the source's. -/
def get_samples_per_tick (raw : Int) : Int :=
  if raw < 1 then 1 else raw

/-- `MasterClock.get_closest_snap_point(sample_index)` (lines 521-536):
`((int(sample_index) + self.samples_per_tick // 2) // self.samples_per_tick)
* self.samples_per_tick`, over natural sample indices (Python `//` on
non-negative integers is `Nat` division). -/
def get_closest_snap_point (samples_per_tick sample_index : Nat) : Nat :=
  (sample_index + samples_per_tick / 2) / samples_per_tick * samples_per_tick

/-- C6: `quantize` rounds a sample index to the nearest multiple of
`samples_per_tick` with integer half-up rounding — for `i = q*t + r`,
`r < t`, the snap point is `q*t` when `2r < t` and `(q+1)*t` otherwise —
`samples_per_tick` is clamped to at least 1 at construction, and with
`t = 1000` index `1499` maps to `1000` and `1500` to `2000`. -/
theorem C6_quantize :
    (∀ raw : Int, 1 ≤ get_samples_per_tick raw) ∧
      (∀ t i q r : Nat, 1 ≤ t → i = q * t + r → r < t →
        get_closest_snap_point t i =
          if 2 * r < t then q * t else (q + 1) * t) ∧
      get_closest_snap_point 1000 1499 = 1000 ∧
      get_closest_snap_point 1000 1500 = 2000 := by
  refine ⟨?_, ?_, by norm_num [get_closest_snap_point],
    by norm_num [get_closest_snap_point]⟩
  · intro raw
    unfold get_samples_per_tick
    split_ifs with h
    · exact le_refl 1
    · omega
  · intro t i q r ht hi hr
    subst hi
    unfold get_closest_snap_point
    have hd2 := Nat.div_add_mod t 2
    have hm : t % 2 < 2 := Nat.mod_lt _ (by norm_num)
    rw [show q * t + r + t / 2 = r + t / 2 + q * t from by ring,
      Nat.add_mul_div_right _ _ (show 0 < t by omega)]
    by_cases hc : 2 * r < t
    · rw [if_pos hc, Nat.div_eq_of_lt (by omega)]
      ring
    · rw [if_neg hc,
        @Nat.div_eq_of_lt_le 1 t (r + t / 2) (by omega) (by omega)]
      ring

/-- Witness for C6 at `t = 3`, `i = 4` (`q = 1`, `r = 1`, rounds down to
`3`) and at a negative raw tick value clamped to `1`. -/
theorem C6_witness :
    get_closest_snap_point 3 4 = 3 ∧ 1 ≤ get_samples_per_tick (-7) := by
  constructor
  · have h := C6_quantize.2.1 3 4 1 1 (by norm_num) (by norm_num)
      (by norm_num)
    simpa using h
  · exact C6_quantize.1 (-7)

/-! ### Track management claim theorems -/

/-- Six occupied mono slots (every `channel_config` is 1). -/
def c7State : Loop :=
  ⟨[some (mkTrack [0]), some (mkTrack [0]), some (mkTrack [0]),
    some (mkTrack [0]), some (mkTrack [0]), some (mkTrack [0])], 0, false, 1⟩

/-- C7 (code bug): with both positions occupied by tracks of identical
channel configuration, `move_track` raises `TypeError` instead of swapping:
the source calls `track1.channel_config()` although `channel_config` is an
integer attribute, so the call fails before the compatibility comparison or
the swap can run. -/
theorem C7_move_track_bug :
    move_track c7State 2 1 = .error PyError.typeErrorNotCallable ∧
      dictGet c7State.loop_tracks 1 = .ok (some (mkTrack [0])) ∧
      dictGet c7State.loop_tracks 2 = .ok (some (mkTrack [0])) ∧
      (mkTrack [0]).channel_config = (mkTrack [0]).channel_config :=
  ⟨rfl, rfl, rfl, rfl⟩

/-- A freshly constructed loop: six occupied slots, playhead 0, not
recording. -/
def c8Fresh : Loop :=
  ⟨[some (mkTrack []), some (mkTrack []), some (mkTrack []),
    some (mkTrack []), some (mkTrack []), some (mkTrack [])], 0, false, 1⟩

/-- `c8Fresh` after `remove_track(1)`: slot 1 holds `None`. -/
def c8Removed : Loop :=
  ⟨[none, some (mkTrack []), some (mkTrack []), some (mkTrack []),
    some (mkTrack []), some (mkTrack [])], 0, false, 1⟩

/-- C8 (code bug): the state with an empty slot is reachable by
`remove_track`, and on it the audio callback raises `AttributeError`
(`None.track_data`) instead of treating the empty slot as silence. -/
theorem C8_callback_raises :
    remove_track c8Fresh 1 = .ok c8Removed ∧
      callback DEFAULT_LOOP_LEN c8Removed [0, 0] 2 =
        .error PyError.attributeError :=
  ⟨rfl, rfl⟩

/-- A loop whose position 2 is empty, armed at position 1. -/
def c9State : Loop :=
  ⟨[some (mkTrack [0]), none, some (mkTrack [0]), some (mkTrack [0]),
    some (mkTrack [0]), some (mkTrack [0])], 0, false, 1⟩

/-- C9 counterexample: position 2 holds no track, yet arming it is not
rejected — `set_recording_track` returns normally and changes the armed
position, so the armed position can reference a non-existent track. -/
theorem C9_counterexample :
    dictGet c9State.loop_tracks 2 = .ok none ∧
      set_recording_track c9State 2 =
        .ok { c9State with recording_track := 2 } ∧
      ({ c9State with recording_track := 2 }).recording_track ≠
        c9State.recording_track :=
  ⟨rfl, rfl, by decide⟩

/-- C9 (amended): `set_recording_track` stores the given position
unconditionally, with no emptiness or range check and no error; arming an
empty slot succeeds, so the armed position is not guaranteed to reference
an existing track. -/
theorem C9_arm_unchecked (st : Loop) (track : Nat) :
    set_recording_track st track = .ok { st with recording_track := track } :=
  rfl

/-- C10: `set_volume` accepts every float — including values below `0.0`
and above `1.0` — without signaling any error (the range-check line builds
an `Exception` object but never raises it) and stores the value verbatim;
no operation confines the stored volume to `[0.0, 1.0]`. -/
theorem C10_set_volume_unconfined (t : Track) (v : ℚ) :
    set_volume t v = .ok { t with track_volume := v } ∧
      ({ t with track_volume := v }).track_volume = v :=
  ⟨rfl, rfl⟩

end AudioLoop
